import Mathlib

/-!
Verification of the GB-Reporting synchronization core.

The development shallowly embeds the synchronization engine of the
repository (src/winedirect.py, src/cache.py and the refresh handlers of
src/app.py) and proves or refutes the frozen claims about it.

Modelling conventions, used throughout:
* calendar dates are integers counting days, and a span is a pair
  (start_date, end_date) of such integers;
* the upstream SOAP client is an oracle function; a Python exception is
  an Option/Except failure value;
* Python while loops are embedded with an explicit fuel argument; the
  entry points supply the exact termination measure of the loop as fuel,
  and the lemmas show that this much fuel is sufficient;
* the sqlite tables are lists of rows, and the cache_status key/value
  table is a function from keys to optional values.
-/

namespace GBReporting

/-! ## Spans and day ranges (src/winedirect.py, fetch_orders_chunked) -/

abbrev Span : Type := Int × Int

/-- All days of the closed range from s to e (empty when e < s). -/
def daysList (s e : Int) : List Int :=
  (List.range (e + 1 - s).toNat).map (fun (i : Nat) => s + (i : Int))

/-- Termination measure of one span: the size of its full bisection tree. -/
def spanWeight (sp : Span) : Nat := 2 * (sp.2 - sp.1).toNat + 1

/-- Termination measure of the whole work list. -/
def stackWeight (st : List Span) : Nat := (st.map spanWeight).sum

/-- Result of a chunked fetch run.  Besides the accumulated orders (what
the Python function returns) the embedding instruments the run with the
spans whose listing fetch succeeded, the spans recorded as failed (the
print in the single-day branch), and every span popped from the work
list, in pop order. -/
structure ChunkResult (α : Type) where
  orders : List α
  successes : List Span
  failures : List Span
  attempts : List Span
  deriving DecidableEq

/-- The initial work list: fixed-size windows of chunk_days days covering
the range, mirroring the `while cursor <= end_date` loop of the source. -/
def chunkInitAux (chunk_days e : Int) : Nat → Int → List Span
  | 0, _ => []
  | fuel + 1, cursor =>
    if cursor ≤ e then
      (cursor, min (cursor + chunk_days - 1) e) ::
        chunkInitAux chunk_days e fuel (min (cursor + chunk_days - 1) e + 1)
    else []

def chunkInit (chunk_days s e : Int) : List Span :=
  if 0 < chunk_days then chunkInitAux chunk_days e ((e - s).toNat + 1) s
  else [(s, e)]

/-- The `while stack:` loop of fetch_orders_chunked.  The head of the
list is the front of the work list (`stack.pop(0)`); on a failed span of
more than one day, the two halves are appended at the back of the list
(`stack.append`), exactly as in the source. -/
def chunkedLoop (fetch : Int → Int → Option (List α)) : Nat → List Span → ChunkResult α
  | 0, _ => ⟨[], [], [], []⟩
  | _ + 1, [] => ⟨[], [], [], []⟩
  | fuel + 1, (s, e) :: rest =>
    match fetch s e with
    | some os =>
      let r := chunkedLoop fetch fuel rest
      ⟨os ++ r.orders, (s, e) :: r.successes, r.failures, (s, e) :: r.attempts⟩
    | none =>
      if e - s ≤ 0 then
        let r := chunkedLoop fetch fuel rest
        ⟨r.orders, r.successes, (s, e) :: r.failures, (s, e) :: r.attempts⟩
      else
        if s + (e - s) / 2 < e then
          let r := chunkedLoop fetch fuel
            (rest ++ [(s, s + (e - s) / 2), (s + (e - s) / 2 + 1, e)])
          ⟨r.orders, r.successes, r.failures, (s, e) :: r.attempts⟩
        else
          let r := chunkedLoop fetch fuel rest
          ⟨r.orders, r.successes, (s, e) :: r.failures, (s, e) :: r.attempts⟩

/-- fetch_orders_chunked of src/winedirect.py, over an abstract listing
oracle (`fetch s e = none` models fetch_orders raising for that span). -/
def fetch_orders_chunked (fetch : Int → Int → Option (List α))
    (start_date end_date chunk_days : Int) : ChunkResult α :=
  if end_date < start_date then ⟨[], [], [], []⟩
  else
    chunkedLoop fetch (stackWeight (chunkInit chunk_days start_date end_date))
      (chunkInit chunk_days start_date end_date)

/-- Concrete listing oracle for the examples below: the listing fetch
fails exactly on the span (0, 3) and succeeds elsewhere, returning the
span start as its only order. -/
def exampleFetch : Int → Int → Option (List Int) :=
  fun s e => if s = 0 ∧ e = 3 then none else some [s]

/-! ## Pagination of fetch_orders (src/winedirect.py, fetch_orders) -/

def empty_s : String := ""

/-- One serialized SearchOrders response: the extracted order id of each
returned row (the empty string when the row has no OrderID, in which
case the row is skipped but still counts towards the page size), and the
four total candidates Total, TotalRows, RecordCount, TotalRecordCount
(none models an absent or empty candidate). -/
structure PageResp where
  rows : List String
  totals : List (Option Int)
  deriving DecidableEq

/-- total = next((int(v) for v in total_candidates if v not in (None, "")), 0) -/
def derived_total (r : PageResp) : Int := (r.totals.filterMap id).headD 0

/-- The `while True:` pagination loop of fetch_orders: page size 200,
rows with an empty id are skipped, after each page the progress callback
is invoked (recorded in the events list as (page, fetched, total)), and
the loop stops on an empty page, on a positive total already reached, or
on a zero total with a short page.  The third result component is false
exactly when the fuel ran out before the loop stopped. -/
def page_loop (resp : Nat → PageResp) :
    Nat → Nat → List String → List (Nat × Nat × Int) →
      List String × List (Nat × Nat × Int) × Bool
  | 0, _, orders, events => (orders, events, false)
  | fuel + 1, page, orders, events =>
    let r := resp page
    let orders1 := orders ++ r.rows.filter (fun oid => oid != empty_s)
    let total := derived_total r
    let events1 := events ++ [(page, orders1.length, total)]
    if r.rows.isEmpty then (orders1, events1, true)
    else if decide (0 < total) && decide (total ≤ (orders1.length : Int)) then
      (orders1, events1, true)
    else if decide (total = 0) && decide (r.rows.length < 200) then
      (orders1, events1, true)
    else page_loop resp fuel (page + 1) orders1 events1

/-- fetch_orders starts at page 1 with no accumulated orders. -/
def fetch_orders_pages (resp : Nat → PageResp) (fuel : Nat) :
    List String × List (Nat × Nat × Int) × Bool :=
  page_loop resp fuel 1 [] []

/-- The stop condition exactly as the claim states it: the page returned
no rows, or a positive total was reported and the records fetched so far
reached it, or no total was reported (the derived total is 0) and the
page returned fewer rows than the page size of 200. -/
def claim_stop (rows : List String) (total : Int) (fetched : Nat) : Bool :=
  rows.isEmpty
    || (decide (0 < total) && decide (total ≤ (fetched : Int)))
    || (decide (total = 0) && decide (rows.length < 200))

/-! ## Rate-limit gate (src/winedirect.py, _ensure_rate_limit) -/

/-- A captured rate-limit header string, as seen by int(): some k when
the string parses as the integer k, none when int() raises ValueError. -/
abbrev RVal := Option Int

inductive GateResult where
  | proceed (checks : Nat)
  | raised (msg : String)
  | fuelOut
  deriving DecidableEq

def rate_limit_exhausted_msg : String := "Rate limit exhausted before next page request."

def rate_wait_pending_msg : String := "waiting for rate limit quota"

/-- Whether a captured remaining value lets the wait loop exit:
present, parses, and strictly positive. -/
def obs_positive : Option RVal → Bool
  | some (some k) => decide (0 < k)
  | _ => false

/-- The `while True:` wait loop of _ensure_rate_limit: probes i is the
remaining value read back after the i-th rate_limit_check (a check that
raises is swallowed and leaves the previous value in place).  Returns
the index of the first probe observed positive, none when the fuel ran
out first. -/
def wait_loop (probes : Nat → Option RVal) : Nat → Nat → Option Nat
  | 0, _ => none
  | fuel + 1, i =>
    match probes i with
    | some (some k) => if 0 < k then some i else wait_loop probes fuel (i + 1)
    | _ => wait_loop probes fuel (i + 1)

/-- _ensure_rate_limit: absent remaining proceeds, a non-parsing value
proceeds (the ValueError branch), a positive value proceeds; otherwise
wait mode loops on telemetry probes and fail-fast mode raises. -/
def ensure_rate_limit (wait_on_rate_limit : Bool) (remaining : Option RVal)
    (probes : Nat → Option RVal) (fuel : Nat) : GateResult :=
  match remaining with
  | none => GateResult.proceed 0
  | some none => GateResult.proceed 0
  | some (some k) =>
    if 0 < k then GateResult.proceed 0
    else if wait_on_rate_limit then
      match wait_loop probes fuel 0 with
      | some i => GateResult.proceed (i + 1)
      | none => GateResult.fuelOut
    else GateResult.raised rate_limit_exhausted_msg

/-- The gate followed by the listing call of the page, as in the body of
the fetch_orders loop (`_ensure_rate_limit()` then `_search_orders`).
The second component counts the listing calls actually issued. -/
def gated_search (wait_on_rate_limit : Bool) (remaining : Option RVal)
    (probes : Nat → Option RVal) (fuel : Nat) (search : Nat → PageResp)
    (page : Nat) : Except String PageResp × Nat :=
  match ensure_rate_limit wait_on_rate_limit remaining probes fuel with
  | GateResult.proceed _ => (Except.ok (search page), 1)
  | GateResult.raised msg => (Except.error msg, 0)
  | GateResult.fuelOut => (Except.error rate_wait_pending_msg, 0)

/-- Concrete probe stream for the examples: the second probe (index 1)
observes remaining 5, every other probe observes remaining 0. -/
def exampleProbes : Nat → Option RVal :=
  fun i => if i = 1 then some (some 5) else some (some 0)

def exampleSearch : Nat → PageResp := fun _ => ⟨[], []⟩

/-! ## Cache store for orders (src/cache.py, refresh_orders_cache)

The orders and order_items tables are lists of rows.  A row keeps the
columns the refresh logic inspects (order_id, and for orders the
completed date) and an opaque payload standing for the remaining
columns.  `completed_date` is an optional day number: none models a
value on which the sqlite date() function yields NULL, so that the
BETWEEN predicate is false. -/

structure OrderRow (α : Type) where
  order_id : String
  completed_date : Option Int
  data : α
  deriving DecidableEq

structure ItemRow (β : Type) where
  order_id : String
  data : β
  deriving DecidableEq

/-- A normalized order as returned by the client: the order columns
plus its line items. -/
structure FetchedOrder (α β : Type) where
  order_id : String
  completed_date : Option Int
  data : α
  items : List β
  deriving DecidableEq

@[ext]
structure OrdersDb (α β : Type) where
  orders : List (OrderRow α)
  order_items : List (ItemRow β)
  deriving DecidableEq

/-- date(completed_date) BETWEEN s AND e. -/
def date_in_range (s e : Int) : Option Int → Bool
  | some d => decide (s ≤ d) && decide (d ≤ e)
  | none => false

/-- SELECT order_id FROM orders WHERE date(completed_date) BETWEEN s AND e. -/
def range_order_ids (s e : Int) (db : OrdersDb α β) : List String :=
  (db.orders.filter (fun o => date_in_range s e o.completed_date)).map
    (fun o => o.order_id)

/-- DELETE FROM order_items WHERE order_id IN (subquery above). -/
def delete_items_in_range (s e : Int) (db : OrdersDb α β) : OrdersDb α β :=
  { db with order_items :=
      db.order_items.filter (fun it => !(decide (it.order_id ∈ range_order_ids s e db))) }

/-- DELETE FROM orders WHERE date(completed_date) BETWEEN s AND e. -/
def delete_orders_in_range (s e : Int) (db : OrdersDb α β) : OrdersDb α β :=
  { db with orders :=
      db.orders.filter (fun o => !(date_in_range s e o.completed_date)) }

def order_row_of (o : FetchedOrder α β) : OrderRow α :=
  ⟨o.order_id, o.completed_date, o.data⟩

def item_rows_of (o : FetchedOrder α β) : List (ItemRow β) :=
  o.items.map (fun b => ⟨o.order_id, b⟩)

/-- INSERT OR REPLACE INTO orders (order_id is the primary key) followed
by INSERT INTO order_items for each line item of the order. -/
def insert_order (db : OrdersDb α β) (o : FetchedOrder α β) : OrdersDb α β :=
  { orders := db.orders.filter (fun r => !(decide (r.order_id = o.order_id)))
      ++ [order_row_of o],
    order_items := db.order_items ++ item_rows_of o }

/-- The write pattern of refresh_orders_cache for the target range:
delete the line items of in-range orders, delete the in-range orders,
then insert the freshly fetched orders and their line items. -/
def refresh_orders_write (s e : Int) (fetched : List (FetchedOrder α β))
    (db : OrdersDb α β) : OrdersDb α β :=
  fetched.foldl insert_order
    (delete_orders_in_range s e (delete_items_in_range s e db))

def fetched_order_ids (fetched : List (FetchedOrder α β)) : List String :=
  fetched.map (fun o => o.order_id)

def fetched_item_rows (fetched : List (FetchedOrder α β)) : List (ItemRow β) :=
  (fetched.map item_rows_of).flatten

/-- The orders that survive an order refresh of the range: stored rows
whose completed date is out of range and whose id is not among the
fetched ids (analysis helper, characterized by the fold lemmas below). -/
def kept_orders {α β : Type} (s e : Int) (fetched : List (FetchedOrder α β))
    (db : OrdersDb α β) : List (OrderRow α) :=
  (db.orders.filter (fun o => !(date_in_range s e o.completed_date))).filter
    (fun r => !(decide (r.order_id ∈ fetched_order_ids fetched)))

/-- The order rows produced by folding the inserts over an empty store
(analysis helper). -/
def inserted_orders {α β : Type} (fetched : List (FetchedOrder α β)) : List (OrderRow α) :=
  (fetched.foldl insert_order (OrdersDb.mk [] [])).orders

/-- The line items that survive the range delete (analysis helper). -/
def kept_items {α β : Type} (s e : Int) (db : OrdersDb α β) : List (ItemRow β) :=
  db.order_items.filter (fun it => !(decide (it.order_id ∈ range_order_ids s e db)))

def order_a : String := "A"

/-- One fetched order A completed on day 5 with one line item 0. -/
def exampleFetched1 : List (FetchedOrder Nat Nat) := [⟨order_a, some 5, 0, [0]⟩]

/-- The same order A, now completed on day 20, with one line item 1. -/
def exampleFetched2 : List (FetchedOrder Nat Nat) := [⟨order_a, some 20, 0, [1]⟩]

/-- A store reachable from the empty store by one refresh of the range
0..10 with exampleFetched1: it holds order A dated day 5 with item 0. -/
def exampleDb0 : OrdersDb Nat Nat := refresh_orders_write 0 10 exampleFetched1 ⟨[], []⟩

/-! ## Status ledger and refresh triggers (src/app.py refresh handlers,
src/cache.py set_cache_status)

The cache_status key/value table is a function from keys to optional
string values; set_cache_status applies INSERT OR REPLACE per key, in
keyword order.  Each refresh handler runs its background body over an
abstract work outcome: ok with the recomputed counts, or error with the
exception text (the recorded text appends the captured traceback). -/

abbrev StatusMap := String → Option String

def set_key (m : StatusMap) (k v : String) : StatusMap :=
  fun q => if q = k then some v else m q

def set_cache_status (m : StatusMap) (kvs : List (String × String)) : StatusMap :=
  kvs.foldl (fun acc p => set_key acc p.1 p.2) m

def k_in_progress : String := "refresh_in_progress"

def k_started_at : String := "refresh_started_at"

def k_finished_at : String := "refresh_finished_at"

def k_error : String := "refresh_error"

def k_orders_count : String := "orders_count"

def k_items_count : String := "items_count"

def k_products_count : String := "products_count"

def k_inventory_count : String := "inventory_count"

def k_latest_order_date : String := "latest_order_date"

def one_s : String := "1"

def zero_s : String := "0"

def newline_s : String := "\n"

/-- The row counts and latest order date recomputed from the store on
the success path of a refresh. -/
structure RefreshCounts where
  ordersCount : Nat
  itemsCount : Nat
  productsCount : Nat
  inventoryCount : Nat
  latestOrder : String
  deriving DecidableEq

/-- The start transition shared by every refresh handler:
in_progress=1, started_at=now, clear the error text. -/
def refresh_start (m : StatusMap) (t1 : String) : StatusMap :=
  set_cache_status m [(k_in_progress, one_s), (k_started_at, t1), (k_error, empty_s)]

/-- The finish transition of the orders and latest refresh handlers. -/
def refresh_orders_finish (m : StatusMap) (t2 tb : String)
    (work : Except String RefreshCounts) : StatusMap :=
  match work with
  | Except.ok c =>
    set_cache_status m [(k_finished_at, t2), (k_in_progress, zero_s),
      (k_orders_count, toString c.ordersCount), (k_items_count, toString c.itemsCount),
      (k_products_count, toString c.productsCount),
      (k_inventory_count, toString c.inventoryCount),
      (k_latest_order_date, c.latestOrder)]
  | Except.error err =>
    set_cache_status m [(k_finished_at, t2), (k_in_progress, zero_s),
      (k_error, err ++ newline_s ++ tb)]

def refresh_products_finish (m : StatusMap) (t2 tb : String)
    (work : Except String RefreshCounts) : StatusMap :=
  match work with
  | Except.ok c =>
    set_cache_status m [(k_finished_at, t2), (k_in_progress, zero_s),
      (k_products_count, toString c.productsCount),
      (k_inventory_count, toString c.inventoryCount)]
  | Except.error err =>
    set_cache_status m [(k_finished_at, t2), (k_in_progress, zero_s),
      (k_error, err ++ newline_s ++ tb)]

def refresh_inventory_finish (m : StatusMap) (t2 tb : String)
    (work : Except String RefreshCounts) : StatusMap :=
  match work with
  | Except.ok c =>
    set_cache_status m [(k_finished_at, t2), (k_in_progress, zero_s),
      (k_inventory_count, toString c.inventoryCount)]
  | Except.error err =>
    set_cache_status m [(k_finished_at, t2), (k_in_progress, zero_s),
      (k_error, err ++ newline_s ++ tb)]

/-- The background body of the orders refresh handler: it starts
unconditionally (no guard in the source).  The boolean records whether a
refresh was started. -/
def refresh_orders_run (m : StatusMap) (t1 t2 tb : String)
    (work : Except String RefreshCounts) : StatusMap × Bool :=
  (refresh_orders_finish (refresh_start m t1) t2 tb work, true)

def refresh_products_run (m : StatusMap) (t1 t2 tb : String)
    (work : Except String RefreshCounts) : StatusMap × Bool :=
  (refresh_products_finish (refresh_start m t1) t2 tb work, true)

def refresh_inventory_run (m : StatusMap) (t1 t2 tb : String)
    (work : Except String RefreshCounts) : StatusMap × Bool :=
  (refresh_inventory_finish (refresh_start m t1) t2 tb work, true)

/-- The background body of the latest refresh handler: the only handler
carrying the in_progress guard, returning with no transition when a
refresh is in progress.  Its finish writes the same keys as the orders
finish. -/
def refresh_latest_run (m : StatusMap) (t1 t2 tb : String)
    (work : Except String RefreshCounts) : StatusMap × Bool :=
  if m k_in_progress = some one_s then (m, false)
  else (refresh_orders_finish (refresh_start m t1) t2 tb work, true)

/-! ## Client construction from the environment (src/winedirect.py,
WineDirectClient.from_env) -/

structure WineDirectClient where
  username : String
  password : String
  region : String
  version : String
  deriving DecidableEq

def env_user : String := "WINE_USERNAME"

def env_password : String := "WINE_PASSWORD"

def env_region : String := "WINE_REGION"

def env_version : String := "WINE_VERSION"

def region_default : String := "us"

def version_default : String := "v3"

def missing_creds_msg : String := "Missing WINE_USERNAME or WINE_PASSWORD env vars"

/-- WineDirectClient.from_env: empty or missing credentials raise
before any client is constructed. -/
def from_env (env : String → Option String) : Except String WineDirectClient :=
  if (env env_user).getD empty_s = empty_s ∨ (env env_password).getD empty_s = empty_s then
    Except.error missing_creds_msg
  else
    Except.ok ⟨(env env_user).getD empty_s, (env env_password).getD empty_s,
      (env env_region).getD region_default, (env env_version).getD version_default⟩

/-- The body of refresh_orders_cache up to client construction: from_env
first, then the rest of the fetch-and-store work with the client. -/
def refresh_orders_cache_work (env : String → Option String)
    (rest : WineDirectClient → Except String RefreshCounts) :
    Except String RefreshCounts :=
  match from_env env with
  | Except.error err => Except.error err
  | Except.ok client => rest client

/-- The orders refresh handler wired to the environment: the status
start transition happens first, then the work (whose first step is
client construction), then the finish transition. -/
def refresh_orders_env_run (env : String → Option String)
    (rest : WineDirectClient → Except String RefreshCounts)
    (m : StatusMap) (t1 t2 tb : String) : StatusMap × Bool :=
  (refresh_orders_finish (refresh_start m t1) t2 tb
    (refresh_orders_cache_work env rest), true)

def m_empty : StatusMap := fun _ => none

def m_running : StatusMap := fun q => if q = k_in_progress then some one_s else none

def t_a : String := "2025-01-01T00:00:00"

def t_b : String := "2025-01-01T00:05:00"

def tb_s : String := "traceback"

def counts_ex : RefreshCounts := ⟨1, 2, 3, 4, empty_s⟩

def env_empty : String → Option String := fun _ => none

def rest_ok : WineDirectClient → Except String RefreshCounts :=
  fun _ => Except.ok ⟨0, 0, 0, 0, empty_s⟩

/-! ## Rate-limit telemetry capture (src/winedirect.py,
_capture_rate_limit; src/cache.py, _update_rate_limit_status) -/

structure RateLimitSnapshot where
  limit : Option String
  remaining : Option String
  reset : Option String
  deriving DecidableEq

/-- _capture_rate_limit: each of the three headers updates its slot of
the snapshot when present, and leaves the previous value otherwise. -/
def capture_rate_limit (headers : Option String × Option String × Option String)
    (rl : RateLimitSnapshot) : RateLimitSnapshot :=
  { limit := match headers.1 with | some v => some v | none => rl.limit,
    remaining := match headers.2.1 with | some v => some v | none => rl.remaining,
    reset := match headers.2.2 with | some v => some v | none => rl.reset }

/-- The reset normalization of _update_rate_limit_status: values above
2_000_000_000_000 are treated as millisecond epochs and floor-divided by
1000; anything below the threshold is used as-is. -/
def normalize_reset (reset_value : Int) : Int :=
  if 2000000000000 < reset_value then reset_value / 1000 else reset_value

/-! ## Monetary normalization (src/winedirect.py, _normalize_order)

Money is modelled as exact rationals.  A payload value is some q when
the merged order_info/order lookup produced the number q, and none when
the key is absent in both dicts or the value is non-numeric; the Python
`or` chain treats a zero value as falsy exactly like an absent one, and
_safe_float of an absent value is 0. -/

def truthy : Option ℚ → Bool
  | none => false
  | some q => !(decide (q = 0))

/-- The Python `a or b`. -/
def py_or (a b : Option ℚ) : Option ℚ := if truthy a then a else b

def safe_float : Option ℚ → ℚ
  | none => 0
  | some q => q

/-- The monetary keys of the payload that _normalize_order reads for
the net-sales computation. -/
structure OrderPayload where
  total : Option ℚ
  orderTotal : Option ℚ
  tax : Option ℚ
  taxTotal : Option ℚ
  orderTax : Option ℚ
  shipping : Option ℚ
  shippingTotal : Option ℚ
  tip : Option ℚ
  deriving DecidableEq

def order_total_of (p : OrderPayload) : ℚ :=
  safe_float (py_or (py_or p.total p.orderTotal) (some 0))

def order_taxes_of (p : OrderPayload) : ℚ :=
  safe_float (py_or (py_or (py_or p.tax p.taxTotal) p.orderTax) (some 0))

def order_shipping_of (p : OrderPayload) : ℚ :=
  safe_float (py_or (py_or p.shipping p.shippingTotal) (some 0))

def order_tip_of (p : OrderPayload) : ℚ :=
  safe_float (py_or p.tip (some 0))

/-- net_sales = max(total - taxes - shipping - tip, 0). -/
def order_net_sales (p : OrderPayload) : ℚ :=
  max (order_total_of p - order_taxes_of p - order_shipping_of p - order_tip_of p) 0

/-- A refund-like payload: total 5, tax 10, everything else absent. -/
def examplePayload : OrderPayload := ⟨some 5, none, some 10, none, none, none, none, none⟩

end GBReporting

namespace GBReporting

theorem spanWeight_pos (sp : Span) : 1 ≤ spanWeight sp := by
  have h : spanWeight sp = 2 * (sp.2 - sp.1).toNat + 1 := rfl
  omega

theorem stackWeight_cons (sp : Span) (st : List Span) :
    stackWeight (sp :: st) = spanWeight sp + stackWeight st := by
  simp [stackWeight]

theorem stackWeight_append (st₁ st₂ : List Span) :
    stackWeight (st₁ ++ st₂) = stackWeight st₁ + stackWeight st₂ := by
  simp [stackWeight]

theorem stackWeight_eq_zero (st : List Span) (h : stackWeight st = 0) : st = [] := by
  cases st with
  | nil => rfl
  | cons sp rest =>
    rw [stackWeight_cons] at h
    have := spanWeight_pos sp
    omega

theorem daysList_self (d : Int) : daysList d d = [d] := by
  have h : (d + 1 - d).toNat = 1 := by omega
  simp [daysList, h, List.range_succ]

theorem mem_daysList {x s e : Int} : x ∈ daysList s e ↔ s ≤ x ∧ x ≤ e := by
  simp only [daysList, List.mem_map, List.mem_range]
  constructor
  · rintro ⟨i, hi, rfl⟩
    omega
  · rintro ⟨h1, h2⟩
    exact ⟨(x - s).toNat, by omega, by omega⟩

theorem daysList_nodup (s e : Int) : (daysList s e).Nodup := by
  refine List.Nodup.map ?_ (List.nodup_range _)
  intro a b h
  have h2 : s + (a : Int) = s + (b : Int) := h
  omega

theorem daysList_append {s m e : Int} (h1 : s ≤ m + 1) (h2 : m ≤ e) :
    daysList s e = daysList s m ++ daysList (m + 1) e := by
  unfold daysList
  have ha : (e + 1 - s).toNat = (m + 1 - s).toNat + (e - m).toNat := by omega
  have hb : (e + 1 - (m + 1)).toNat = (e - m).toNat := by omega
  rw [ha, hb, List.range_add, List.map_append, List.map_map]
  congr 1
  apply List.map_congr_left
  intro i _
  simp only [Function.comp_apply]
  push_cast
  omega

theorem chunkInitAux_eq_nil (c e : Int) (fuel : Nat) (cursor : Int) (h : e < cursor) :
    chunkInitAux c e fuel cursor = [] := by
  cases fuel with
  | zero => rfl
  | succ n =>
    unfold chunkInitAux
    rw [if_neg (by omega)]

theorem chunkInitAux_valid (c e : Int) (hc : 0 < c) :
    ∀ fuel cursor, ∀ sp ∈ chunkInitAux c e fuel cursor, sp.1 ≤ sp.2 := by
  intro fuel
  induction fuel with
  | zero => intro cursor sp h; simp [chunkInitAux] at h
  | succ n ih =>
    intro cursor sp h
    unfold chunkInitAux at h
    by_cases hce : cursor ≤ e
    · rw [if_pos hce] at h
      rcases List.mem_cons.1 h with h1 | h2
      · subst h1
        exact le_min (by omega) hce
      · exact ih _ sp h2
    · rw [if_neg hce] at h
      simp at h

theorem chunkInitAux_days (c e : Int) (hc : 0 < c) :
    ∀ fuel cursor, cursor ≤ e → (e - cursor).toNat < fuel →
      ((chunkInitAux c e fuel cursor).map (fun sp => daysList sp.1 sp.2)).flatten
        = daysList cursor e := by
  intro fuel
  induction fuel with
  | zero => intro cursor h1 h2; omega
  | succ n ih =>
    intro cursor h1 h2
    unfold chunkInitAux
    rw [if_pos h1]
    have hcur_le : cursor ≤ min (cursor + c - 1) e := le_min (by omega) h1
    have hce_le : min (cursor + c - 1) e ≤ e := min_le_right _ _
    simp only [List.map_cons, List.flatten_cons]
    by_cases hend : e < min (cursor + c - 1) e + 1
    · have heq : min (cursor + c - 1) e = e := by omega
      rw [chunkInitAux_eq_nil c e n _ hend]
      simp [heq]
    · rw [ih (min (cursor + c - 1) e + 1) (by omega) (by omega)]
      exact (daysList_append (by omega) hce_le).symm

theorem singletons_days_join (l : List Span) (h : ∀ sp ∈ l, sp.1 = sp.2) :
    (l.map (fun sp => daysList sp.1 sp.2)).flatten = l.map Prod.fst := by
  induction l with
  | nil => simp
  | cons sp rest ih =>
    have h1 : daysList sp.1 sp.2 = [sp.1] := by
      rw [← h sp (List.mem_cons_self _ _), daysList_self]
    simp only [List.map_cons, List.flatten_cons, h1]
    rw [ih (fun x hx => h x (List.mem_cons_of_mem _ hx))]
    rfl

theorem chunkedLoop_failures (fetch : Int → Int → Option (List α)) :
    ∀ fuel st, (∀ sp ∈ st, sp.1 ≤ sp.2) →
      ∀ sp ∈ (chunkedLoop fetch fuel st).failures,
        sp.1 = sp.2 ∧ fetch sp.1 sp.2 = none ∧ sp ∈ (chunkedLoop fetch fuel st).attempts := by
  intro fuel
  induction fuel with
  | zero => intro st _ sp h; simp [chunkedLoop] at h
  | succ n ih =>
    intro st hv sp hsp
    match st with
    | [] => simp [chunkedLoop] at hsp
    | (s, e) :: rest =>
      have hv_rest : ∀ x ∈ rest, x.1 ≤ x.2 := fun x hx => hv x (List.mem_cons_of_mem _ hx)
      have hse : s ≤ e := hv (s, e) (List.mem_cons_self _ _)
      cases hf : fetch s e with
      | some os =>
        simp only [chunkedLoop, hf] at hsp ⊢
        obtain ⟨ha, hb, hc⟩ := ih rest hv_rest sp hsp
        exact ⟨ha, hb, List.mem_cons_of_mem _ hc⟩
      | none =>
        by_cases hd : e - s ≤ 0
        · simp only [chunkedLoop, hf, if_pos hd] at hsp ⊢
          rcases List.mem_cons.1 hsp with h1 | h2
          · subst h1
            refine ⟨by omega, hf, List.mem_cons_self _ _⟩
          · obtain ⟨ha, hb, hc⟩ := ih rest hv_rest sp h2
            exact ⟨ha, hb, List.mem_cons_of_mem _ hc⟩
        · have hmid : s + (e - s) / 2 < e := by omega
          simp only [chunkedLoop, hf, if_neg hd, if_pos hmid] at hsp ⊢
          have hv2 : ∀ x ∈ rest ++ [(s, s + (e - s) / 2), (s + (e - s) / 2 + 1, e)],
              x.1 ≤ x.2 := by
            intro x hx
            rcases List.mem_append.1 hx with h1 | h2
            · exact hv_rest x h1
            · rcases List.mem_cons.1 h2 with h3 | h4
              · subst h3; simp; omega
              · rcases List.mem_cons.1 h4 with h5 | h6
                · subst h5; simp; omega
                · simp at h6
          obtain ⟨ha, hb, hc⟩ := ih _ hv2 sp hsp
          exact ⟨ha, hb, List.mem_cons_of_mem _ hc⟩

theorem chunkedLoop_orders (fetch : Int → Int → Option (List α)) :
    ∀ fuel st,
      (chunkedLoop fetch fuel st).orders
        = ((chunkedLoop fetch fuel st).successes.map (fun sp => (fetch sp.1 sp.2).getD [])).flatten
      ∧ ∀ sp ∈ (chunkedLoop fetch fuel st).successes, fetch sp.1 sp.2 ≠ none := by
  intro fuel
  induction fuel with
  | zero => intro st; simp [chunkedLoop]
  | succ n ih =>
    intro st
    match st with
    | [] => simp [chunkedLoop]
    | (s, e) :: rest =>
      cases hf : fetch s e with
      | some os =>
        simp only [chunkedLoop, hf, List.map_cons, List.flatten_cons]
        refine ⟨?_, ?_⟩
        · rw [(ih rest).1]
          simp [hf]
        · intro sp hsp
          rcases List.mem_cons.1 hsp with h1 | h2
          · subst h1; simp [hf]
          · exact (ih rest).2 sp h2
      | none =>
        by_cases hd : e - s ≤ 0
        · simp only [chunkedLoop, hf, if_pos hd]
          exact ih rest
        · by_cases hmid : s + (e - s) / 2 < e
          · simp only [chunkedLoop, hf, if_neg hd, if_pos hmid]
            exact ih _
          · simp only [chunkedLoop, hf, if_neg hd, if_neg hmid]
            exact ih rest

theorem chunkedLoop_perm (fetch : Int → Int → Option (List α)) :
    ∀ fuel st, stackWeight st ≤ fuel → (∀ sp ∈ st, sp.1 ≤ sp.2) →
      List.Perm
        (((chunkedLoop fetch fuel st).successes.map (fun sp => daysList sp.1 sp.2)).flatten
          ++ ((chunkedLoop fetch fuel st).failures.map (fun sp => daysList sp.1 sp.2)).flatten)
        ((st.map (fun sp => daysList sp.1 sp.2)).flatten) := by
  intro fuel
  induction fuel with
  | zero =>
    intro st hw _
    rw [stackWeight_eq_zero st (by omega)]
    simp [chunkedLoop]
  | succ n ih =>
    intro st hw hv
    match st with
    | [] => simp [chunkedLoop]
    | (s, e) :: rest =>
      have hv_rest : ∀ x ∈ rest, x.1 ≤ x.2 := fun x hx => hv x (List.mem_cons_of_mem _ hx)
      have hse : s ≤ e := hv (s, e) (List.mem_cons_self _ _)
      have hw_cons : spanWeight (s, e) + stackWeight rest ≤ n + 1 := by
        rw [← stackWeight_cons]; exact hw
      have hwp := spanWeight_pos (s, e)
      cases hf : fetch s e with
      | some os =>
        simp only [chunkedLoop, hf, List.map_cons, List.flatten_cons]
        rw [List.append_assoc]
        exact List.Perm.append_left _ (ih rest (by omega) hv_rest)
      | none =>
        by_cases hd : e - s ≤ 0
        · simp only [chunkedLoop, hf, if_pos hd, List.map_cons, List.flatten_cons]
          refine List.Perm.trans (List.perm_append_comm_assoc _ _ _) ?_
          exact List.Perm.append_left _ (ih rest (by omega) hv_rest)
        · have hmid : s + (e - s) / 2 < e := by omega
          simp only [chunkedLoop, hf, if_neg hd, if_pos hmid]
          have hv2 : ∀ x ∈ rest ++ [(s, s + (e - s) / 2), (s + (e - s) / 2 + 1, e)],
              x.1 ≤ x.2 := by
            intro x hx
            rcases List.mem_append.1 hx with h1 | h2
            · exact hv_rest x h1
            · rcases List.mem_cons.1 h2 with h3 | h4
              · subst h3; simp; omega
              · rcases List.mem_cons.1 h4 with h5 | h6
                · subst h5; simp; omega
                · simp at h6
          have hw2 : stackWeight (rest ++ [(s, s + (e - s) / 2), (s + (e - s) / 2 + 1, e)]) ≤ n := by
            rw [stackWeight_append]
            have h1 : spanWeight (s, e) = 2 * (e - s).toNat + 1 := rfl
            have h2 : stackWeight [(s, s + (e - s) / 2), (s + (e - s) / 2 + 1, e)]
                = (2 * (s + (e - s) / 2 - s).toNat + 1)
                  + ((2 * (e - (s + (e - s) / 2 + 1)).toNat + 1) + 0) := rfl
            rw [h2]
            omega
          refine List.Perm.trans (ih _ hw2 hv2) ?_
          simp only [List.map_append, List.flatten_append, List.map_cons, List.flatten_cons,
            List.map_nil, List.flatten_nil, List.append_nil]
          rw [← daysList_append (by omega) (by omega)]
          exact List.perm_append_comm

/-- C1: for a valid date range, fetch_orders_chunked (i) records as
failures only single-day spans whose listing fetch failed, each of which
was itself attempted (the listing call was made for exactly that day and
raised); (ii) the days covered by the successful spans together with the
failed days form, without repetition, exactly the requested range, so a
failed day is recorded exactly once and never re-enters the work (never
retried); (iii) the returned order list is the concatenation of the
results of the successful spans, hence a failure in one part of the
range does not prevent the orders of any day covered by a successful
span from appearing in the returned list. -/
theorem fetch_orders_chunked_day_isolation {α : Type} (fetch : Int → Int → Option (List α))
    (s e c : Int) (hse : s ≤ e) :
    (∀ sp ∈ (fetch_orders_chunked fetch s e c).failures,
        sp.1 = sp.2 ∧ fetch sp.1 sp.2 = none
          ∧ sp ∈ (fetch_orders_chunked fetch s e c).attempts) ∧
    List.Perm
      (((fetch_orders_chunked fetch s e c).successes.map
          (fun sp => daysList sp.1 sp.2)).flatten
        ++ ((fetch_orders_chunked fetch s e c).failures.map
          (fun sp => daysList sp.1 sp.2)).flatten)
      (daysList s e) ∧
    (fetch_orders_chunked fetch s e c).orders
      = ((fetch_orders_chunked fetch s e c).successes.map
          (fun sp => (fetch sp.1 sp.2).getD [])).flatten ∧
    ((fetch_orders_chunked fetch s e c).failures.map Prod.fst).Nodup ∧
    (∀ d, s ≤ d → d ≤ e →
      ((d, d) ∈ (fetch_orders_chunked fetch s e c).failures ∧ fetch d d = none) ∨
      (∃ sp ∈ (fetch_orders_chunked fetch s e c).successes, sp.1 ≤ d ∧ d ≤ sp.2 ∧
        ∃ os, fetch sp.1 sp.2 = some os
          ∧ ∀ a ∈ os, a ∈ (fetch_orders_chunked fetch s e c).orders)) := by
  have hne : ¬ e < s := by omega
  have hmain : fetch_orders_chunked fetch s e c
      = chunkedLoop fetch (stackWeight (chunkInit c s e)) (chunkInit c s e) := by
    unfold fetch_orders_chunked
    rw [if_neg hne]
  have hvalid : ∀ sp ∈ chunkInit c s e, sp.1 ≤ sp.2 := by
    unfold chunkInit
    by_cases hc : 0 < c
    · rw [if_pos hc]
      exact chunkInitAux_valid c e hc _ _
    · rw [if_neg hc]
      intro sp hsp
      simp only [List.mem_singleton] at hsp
      subst hsp
      exact hse
  have hdays : ((chunkInit c s e).map (fun sp => daysList sp.1 sp.2)).flatten
      = daysList s e := by
    unfold chunkInit
    by_cases hc : 0 < c
    · rw [if_pos hc]
      exact chunkInitAux_days c e hc _ s hse (by omega)
    · rw [if_neg hc]
      simp
  rw [hmain]
  have hfail := chunkedLoop_failures fetch (stackWeight (chunkInit c s e)) _ hvalid
  have hord := chunkedLoop_orders fetch (stackWeight (chunkInit c s e)) (chunkInit c s e)
  have hperm0 := chunkedLoop_perm fetch (stackWeight (chunkInit c s e)) _ (le_refl _) hvalid
  rw [hdays] at hperm0
  refine ⟨hfail, hperm0, hord.1, ?_, ?_⟩
  · have hnd := (hperm0.nodup_iff).2 (daysList_nodup s e)
    have hnd2 := hnd.of_append_right
    rw [singletons_days_join _ (fun sp hsp => (hfail sp hsp).1)] at hnd2
    exact hnd2
  · intro d hd1 hd2
    have hmem := hperm0.mem_iff.2 (mem_daysList.2 ⟨hd1, hd2⟩)
    rcases List.mem_append.1 hmem with hsucc | hfailm
    · right
      rcases List.mem_flatten.1 hsucc with ⟨l, hl, hdl⟩
      rcases List.mem_map.1 hl with ⟨sp, hsp, rfl⟩
      have hb := mem_daysList.1 hdl
      have hnn := hord.2 sp hsp
      cases hfe : fetch sp.1 sp.2 with
      | none => exact absurd hfe hnn
      | some os =>
        refine ⟨sp, hsp, hb.1, hb.2, os, hfe, ?_⟩
        intro a ha
        rw [hord.1]
        refine List.mem_flatten.2 ⟨(fetch sp.1 sp.2).getD [], List.mem_map.2 ⟨sp, hsp, rfl⟩, ?_⟩
        rw [hfe]
        exact ha
    · left
      rcases List.mem_flatten.1 hfailm with ⟨l, hl, hdl⟩
      rcases List.mem_map.1 hl with ⟨sp, hsp, rfl⟩
      obtain ⟨hs12, hfn, _⟩ := hfail sp hsp
      have hsingle : daysList sp.1 sp.2 = [sp.1] := by
        rw [← hs12, daysList_self]
      rw [hsingle] at hdl
      have hd_eq : d = sp.1 := by simpa using hdl
      have hsp_eq : sp = (d, d) := by
        obtain ⟨a, b⟩ := sp
        simp only at hs12 hd_eq
        simp [hd_eq, hs12]
      rw [hsp_eq] at hsp hfn
      exact ⟨hsp, hfn⟩

/-- Witness for C1 at a concrete input: the range 0..2 with the default
chunk width, and an oracle that fails on the span (0, 3): the recorded
failed days are free of duplicates. -/
theorem fetch_orders_chunked_day_isolation_witness :
    ((fetch_orders_chunked exampleFetch 0 2 30).failures.map Prod.fst).Nodup :=
  (fetch_orders_chunked_day_isolation exampleFetch 0 2 30 (by decide)).2.2.2.1

/-- C2 counterexample: on the range 0..7 with 4-day chunks, the work
list starts as span (0,3) then span (4,7).  The listing fetch for (0,3)
fails, yet the next span attempted is (4,7) — a span that was already
waiting in the work list — and the two halves (0,1) and (2,3) of the
failed span are attempted only after it.  This refutes the claim that
both halves are pushed onto the front of the work list and processed
before any span already waiting (depth-first on failure). -/
theorem fetch_orders_chunked_front_push_cex :
    (fetch_orders_chunked exampleFetch 0 7 4).attempts
        = [(0, 3), (4, 7), (0, 1), (2, 3)] ∧
    List.indexOf ((4 : Int), (7 : Int)) (fetch_orders_chunked exampleFetch 0 7 4).attempts
      < List.indexOf ((0 : Int), (1 : Int)) (fetch_orders_chunked exampleFetch 0 7 4).attempts := by
  constructor
  · rfl
  · decide

/-- C2 amended: when a span of more than one day fails, the loop bisects
it at its midpoint into two contiguous sub-spans covering exactly the
failed span, and appends both onto the BACK of the work list, so that
spans already waiting in the work list are processed before the halves
(breadth-first on failure); the span itself is recorded as attempted. -/
theorem fetch_orders_chunked_bisect_appends_back {α : Type}
    (fetch : Int → Int → Option (List α)) (fuel : Nat) (s e : Int) (rest : List Span)
    (hf : fetch s e = none) (hd : 0 < e - s) :
    chunkedLoop fetch (fuel + 1) ((s, e) :: rest)
      = ⟨(chunkedLoop fetch fuel
            (rest ++ [(s, s + (e - s) / 2), (s + (e - s) / 2 + 1, e)])).orders,
         (chunkedLoop fetch fuel
            (rest ++ [(s, s + (e - s) / 2), (s + (e - s) / 2 + 1, e)])).successes,
         (chunkedLoop fetch fuel
            (rest ++ [(s, s + (e - s) / 2), (s + (e - s) / 2 + 1, e)])).failures,
         (s, e) :: (chunkedLoop fetch fuel
            (rest ++ [(s, s + (e - s) / 2), (s + (e - s) / 2 + 1, e)])).attempts⟩
    ∧ s ≤ s + (e - s) / 2
    ∧ s + (e - s) / 2 + 1 ≤ e
    ∧ daysList s (s + (e - s) / 2) ++ daysList (s + (e - s) / 2 + 1) e = daysList s e := by
  have hd2 : ¬ e - s ≤ 0 := by omega
  have hmid : s + (e - s) / 2 < e := by omega
  refine ⟨?_, by omega, by omega, (daysList_append (by omega) (by omega)).symm⟩
  simp only [chunkedLoop, hf, if_neg hd2, if_pos hmid]

/-- Witness for C2 amended at a concrete input: the failing span (0,3)
with the span (4,7) already waiting. -/
theorem if_if_if_or {β : Type} (b1 b2 b3 : Bool) (x y : β) :
    (if b1 then x else if b2 then x else if b3 then x else y)
      = (if b1 || b2 || b3 then x else y) := by
  cases b1 <;> cases b2 <;> cases b3 <;> simp

theorem wait_loop_first (probes : Nat → Option RVal) :
    ∀ fuel i j, wait_loop probes fuel i = some j →
      i ≤ j ∧ obs_positive (probes j) = true
        ∧ ∀ x, i ≤ x → x < j → obs_positive (probes x) = false := by
  intro fuel
  induction fuel with
  | zero => intro i j h; simp [wait_loop] at h
  | succ n ih =>
    intro i j h
    unfold wait_loop at h
    cases hp : probes i with
    | none =>
      rw [hp] at h
      obtain ⟨h1, h2, h3⟩ := ih (i + 1) j h
      refine ⟨by omega, h2, ?_⟩
      intro x hx1 hx2
      by_cases hxi : x = i
      · subst hxi; simp [obs_positive, hp]
      · exact h3 x (by omega) hx2
    | some v =>
      cases v with
      | none =>
        rw [hp] at h
        obtain ⟨h1, h2, h3⟩ := ih (i + 1) j h
        refine ⟨by omega, h2, ?_⟩
        intro x hx1 hx2
        by_cases hxi : x = i
        · subst hxi; simp [obs_positive, hp]
        · exact h3 x (by omega) hx2
      | some k =>
        rw [hp] at h
        have h' : (if 0 < k then some i else wait_loop probes n (i + 1)) = some j := h
        by_cases hk : 0 < k
        · rw [if_pos hk] at h'
          have hj : j = i := by
            simp at h'
            omega
          subst hj
          refine ⟨le_refl _, by simp [obs_positive, hp, hk], ?_⟩
          intro x hx1 hx2
          omega
        · rw [if_neg hk] at h'
          obtain ⟨h1, h2, h3⟩ := ih (i + 1) j h'
          refine ⟨by omega, h2, ?_⟩
          intro x hx1 hx2
          by_cases hxi : x = i
          · subst hxi; simp [obs_positive, hp, hk]
          · exact h3 x (by omega) hx2

theorem fetch_orders_chunked_bisect_appends_back_witness :
    chunkedLoop exampleFetch 14 [((0 : Int), (3 : Int)), (4, 7)]
      = ⟨(chunkedLoop exampleFetch 13 [((4 : Int), (7 : Int)), (0, 1), (2, 3)]).orders,
         (chunkedLoop exampleFetch 13 [((4 : Int), (7 : Int)), (0, 1), (2, 3)]).successes,
         (chunkedLoop exampleFetch 13 [((4 : Int), (7 : Int)), (0, 1), (2, 3)]).failures,
         (0, 3) :: (chunkedLoop exampleFetch 13
            [((4 : Int), (7 : Int)), (0, 1), (2, 3)]).attempts⟩ :=
  (fetch_orders_chunked_bisect_appends_back exampleFetch 13 0 3 [(4, 7)]
    (by decide) (by decide)).1

/-- C4: each iteration of the fetch_orders pagination loop requests the
page of the current page number, appends the rows that carry an order
id, records the progress callback invocation (page, fetched count,
total), and then stops exactly when the claimed stop condition holds —
the page returned no rows, or a positive total was reported and the
fetched count reached it, or no total was reported and fewer than the
page size of 200 rows came back; otherwise it recurses on page + 1. -/
theorem fetch_orders_pagination_stop (resp : Nat → PageResp) (fuel page : Nat)
    (orders : List String) (events : List (Nat × Nat × Int)) :
    page_loop resp (fuel + 1) page orders events
      = (let r := resp page
         let orders1 := orders ++ r.rows.filter (fun oid => oid != empty_s)
         let total := derived_total r
         let events1 := events ++ [(page, orders1.length, total)]
         if claim_stop r.rows total orders1.length then (orders1, events1, true)
         else page_loop resp fuel (page + 1) orders1 events1) := by
  simp only [page_loop, claim_stop]
  exact if_if_if_or _ _ _ _ _

/-- C5: before a paginated page request, the rate-limit gate (i) lets
the request proceed when no remaining value was captured or the captured
value does not parse as an integer (fail open), and the listing call is
then issued; (ii) with a non-positive captured remaining and wait mode
off, it raises the descriptive error and no listing call is issued;
(iii) with a non-positive captured remaining and wait mode on, it
proceeds only after the first telemetry probe observed to be positive
(all earlier probes were non-positive), and while no probe has been
observed positive no listing call is issued. -/
theorem ensure_rate_limit_gate (wait : Bool) (rem : Option RVal)
    (probes : Nat → Option RVal) (fuel : Nat) (search : Nat → PageResp) (page : Nat) :
    ((rem = none ∨ rem = some none) →
        ensure_rate_limit wait rem probes fuel = GateResult.proceed 0
        ∧ (gated_search wait rem probes fuel search page).2 = 1)
    ∧ (∀ k : Int, rem = some (some k) → k ≤ 0 → wait = false →
        ensure_rate_limit wait rem probes fuel = GateResult.raised rate_limit_exhausted_msg
        ∧ (gated_search wait rem probes fuel search page).2 = 0
        ∧ (gated_search wait rem probes fuel search page).1
            = Except.error rate_limit_exhausted_msg)
    ∧ (∀ k : Int, rem = some (some k) → k ≤ 0 → wait = true →
        (∀ j : Nat, ensure_rate_limit wait rem probes fuel = GateResult.proceed (j + 1) →
          obs_positive (probes j) = true
            ∧ ∀ x : Nat, x < j → obs_positive (probes x) = false)
        ∧ (ensure_rate_limit wait rem probes fuel = GateResult.fuelOut →
            (gated_search wait rem probes fuel search page).2 = 0)) := by
  refine ⟨?_, ?_, ?_⟩
  · rintro (rfl | rfl) <;> exact ⟨rfl, rfl⟩
  · rintro k rfl hk rfl
    have hens : ensure_rate_limit false (some (some k)) probes fuel
        = GateResult.raised rate_limit_exhausted_msg := by
      simp only [ensure_rate_limit]
      rw [if_neg (by omega)]
      simp
    refine ⟨hens, ?_, ?_⟩ <;> simp [gated_search, hens]
  · rintro k rfl hk rfl
    have hens : ensure_rate_limit true (some (some k)) probes fuel
        = (match wait_loop probes fuel 0 with
           | some i => GateResult.proceed (i + 1)
           | none => GateResult.fuelOut) := by
      simp only [ensure_rate_limit]
      rw [if_neg (by omega)]
      simp
    constructor
    · intro j hj
      rw [hens] at hj
      cases hwl : wait_loop probes fuel 0 with
      | none => rw [hwl] at hj; simp at hj
      | some i =>
        rw [hwl] at hj
        have hij : i = j := by
          simp at hj
          omega
        subst hij
        obtain ⟨_, h2, h3⟩ := wait_loop_first probes fuel 0 i hwl
        exact ⟨h2, fun x hx => h3 x (by omega) hx⟩
    · intro hfo
      simp [gated_search, hfo]

/-- Witness for C5 at concrete inputs: a captured remaining of 0 raises
in fail-fast mode with no listing call; in wait mode with probes that
observe 0 then 5, the gate proceeds after the probe of index 1, which is
positive while the probe of index 0 was not. -/
theorem ensure_rate_limit_gate_witness :
    (ensure_rate_limit false (some (some 0)) exampleProbes 5
        = GateResult.raised rate_limit_exhausted_msg
      ∧ (gated_search false (some (some 0)) exampleProbes 5 exampleSearch 1).2 = 0
      ∧ (gated_search false (some (some 0)) exampleProbes 5 exampleSearch 1).1
          = Except.error rate_limit_exhausted_msg)
    ∧ obs_positive (exampleProbes 1) = true
    ∧ obs_positive (exampleProbes 0) = false :=
  ⟨(ensure_rate_limit_gate false (some (some 0)) exampleProbes 5 exampleSearch 1).2.1
      0 rfl (by decide) rfl,
   (((ensure_rate_limit_gate true (some (some 0)) exampleProbes 5 exampleSearch 1).2.2
      0 rfl (by decide) rfl).1 1 (by decide)).1,
   (((ensure_rate_limit_gate true (some (some 0)) exampleProbes 5 exampleSearch 1).2.2
      0 rfl (by decide) rfl).1 1 (by decide)).2 0 (by decide)⟩

theorem insert_order_items_fold {α β : Type} :
    ∀ (fetched : List (FetchedOrder α β)) (db : OrdersDb α β),
      (fetched.foldl insert_order db).order_items
        = db.order_items ++ fetched_item_rows fetched := by
  intro fetched
  induction fetched with
  | nil => intro db; simp [fetched_item_rows]
  | cons o rest ih =>
    intro db
    simp only [List.foldl_cons]
    rw [ih]
    simp [insert_order, fetched_item_rows, List.append_assoc]

theorem insert_order_orders_fold {α β : Type} :
    ∀ (fetched : List (FetchedOrder α β)) (db : OrdersDb α β),
      (fetched.foldl insert_order db).orders
        = db.orders.filter (fun r => !(decide (r.order_id ∈ fetched_order_ids fetched)))
          ++ (fetched.foldl insert_order (OrdersDb.mk [] [])).orders := by
  intro fetched
  induction fetched with
  | nil =>
    intro db
    simp [fetched_order_ids]
  | cons o rest ih =>
    intro db
    simp only [List.foldl_cons]
    rw [ih (insert_order db o), ih (insert_order (OrdersDb.mk [] []) o)]
    simp only [insert_order, order_row_of, List.filter_append, List.filter_nil,
      List.nil_append, List.append_assoc]
    have hff : ∀ (l : List (OrderRow α)),
        (l.filter (fun r => !(decide (r.order_id = o.order_id)))).filter
            (fun r => !(decide (r.order_id ∈ fetched_order_ids rest)))
          = l.filter (fun r => !(decide (r.order_id ∈ fetched_order_ids (o :: rest)))) := by
      intro l
      rw [List.filter_filter]
      apply List.filter_congr
      intro r hr
      simp only [fetched_order_ids, List.map_cons, List.mem_cons]
      by_cases h1 : r.order_id = o.order_id <;>
        by_cases h2 : r.order_id ∈ List.map (fun x => x.order_id) rest <;>
          simp [h1, h2]
    rw [hff]

theorem insert_order_row_origin {α β : Type} :
    ∀ (fetched : List (FetchedOrder α β)) (db : OrdersDb α β) (r : OrderRow α),
      r ∈ (fetched.foldl insert_order db).orders →
        r ∈ db.orders ∨ ∃ o ∈ fetched, r = order_row_of o := by
  intro fetched
  induction fetched with
  | nil => intro db r h; exact Or.inl h
  | cons o rest ih =>
    intro db r h
    simp only [List.foldl_cons] at h
    rcases ih (insert_order db o) r h with h1 | h2
    · simp only [insert_order, List.mem_append] at h1
      rcases h1 with h3 | h4
      · exact Or.inl (List.mem_filter.1 h3).1
      · refine Or.inr ⟨o, List.mem_cons_self _ _, ?_⟩
        simpa using h4
    · obtain ⟨o2, ho2, hr⟩ := h2
      exact Or.inr ⟨o2, List.mem_cons_of_mem _ ho2, hr⟩

theorem mem_ids_insert {α β : Type} (db : OrdersDb α β) (o : FetchedOrder α β)
    (oid : String)
    (h : oid ∈ db.orders.map (fun r => r.order_id) ∨ oid = o.order_id) :
    oid ∈ (insert_order db o).orders.map (fun r => r.order_id) := by
  by_cases heq : oid = o.order_id
  · simp only [insert_order, List.map_append, List.mem_append]
    right
    simp [order_row_of, heq]
  · rcases h with h1 | h2
    · rcases List.mem_map.1 h1 with ⟨r, hr, hrid⟩
      simp only [insert_order, List.map_append, List.mem_append]
      left
      refine List.mem_map.2 ⟨r, List.mem_filter.2 ⟨hr, ?_⟩, hrid⟩
      simp [hrid, heq]
    · exact absurd h2 heq

theorem mem_ids_fold {α β : Type} :
    ∀ (fetched : List (FetchedOrder α β)) (db : OrdersDb α β) (oid : String),
      (oid ∈ db.orders.map (fun r => r.order_id) ∨ oid ∈ fetched_order_ids fetched) →
      oid ∈ (fetched.foldl insert_order db).orders.map (fun r => r.order_id) := by
  intro fetched
  induction fetched with
  | nil =>
    intro db oid h
    rcases h with h1 | h2
    · exact h1
    · simp [fetched_order_ids] at h2
  | cons o rest ih =>
    intro db oid h
    simp only [List.foldl_cons]
    apply ih (insert_order db o) oid
    rcases h with h1 | h2
    · exact Or.inl (mem_ids_insert db o oid (Or.inl h1))
    · simp only [fetched_order_ids, List.map_cons, List.mem_cons] at h2
      rcases h2 with h3 | h4
      · exact Or.inl (mem_ids_insert db o oid (Or.inr h3))
      · exact Or.inr h4

/-- Any order refresh write decomposes as: the stored orders that are
out of range and not re-fetched, followed by the inserted rows; and the
stored items whose order is not in range, followed by the fetched item
rows.  This exhibits the delete-items, delete-orders, insert order of
the source. -/
theorem refresh_orders_write_decomp {α β : Type} (s e : Int)
    (fetched : List (FetchedOrder α β)) (db : OrdersDb α β) :
    refresh_orders_write s e fetched db
      = OrdersDb.mk (kept_orders s e fetched db ++ inserted_orders fetched)
          (kept_items s e db ++ fetched_item_rows fetched) := by
  unfold refresh_orders_write
  have hbase : delete_orders_in_range s e (delete_items_in_range s e db)
      = OrdersDb.mk
          (db.orders.filter (fun o => !(date_in_range s e o.completed_date)))
          (kept_items s e db) := rfl
  rw [hbase]
  apply OrdersDb.ext
  · rw [insert_order_orders_fold]
    rfl
  · rw [insert_order_items_fold]

/-- C3 amended: the order refresh deletes the in-range line items, then
the in-range orders, then inserts the fetched orders and their items
(the decomposition theorem above); replaying the same refresh is
idempotent provided every stored line item carrying the id of a fetched
order belongs to a stored order whose completed date lies in the
refreshed range — a condition that holds for referentially consistent
stores and that the first run itself re-establishes. -/
theorem refresh_orders_cache_idempotent {α β : Type} (s e : Int)
    (fetched : List (FetchedOrder α β)) (db : OrdersDb α β)
    (Hf : ∀ o ∈ fetched, date_in_range s e o.completed_date = true)
    (H0 : ∀ it ∈ db.order_items, it.order_id ∈ fetched_order_ids fetched →
          ∃ r ∈ db.orders, r.order_id = it.order_id
            ∧ date_in_range s e r.completed_date = true) :
    refresh_orders_write s e fetched (refresh_orders_write s e fetched db)
      = refresh_orders_write s e fetched db := by
  have hL_origin : ∀ r ∈ inserted_orders fetched, ∃ o ∈ fetched, r = order_row_of o := by
    intro r hr
    rcases insert_order_row_origin fetched (OrdersDb.mk [] []) r hr with h | h
    · simp at h
    · exact h
  have hL_inrange : ∀ r ∈ inserted_orders fetched,
      date_in_range s e r.completed_date = true := by
    intro r hr
    obtain ⟨o, ho, rfl⟩ := hL_origin r hr
    exact Hf o ho
  have hL_ids : ∀ r ∈ inserted_orders fetched,
      r.order_id ∈ fetched_order_ids fetched := by
    intro r hr
    obtain ⟨o, ho, rfl⟩ := hL_origin r hr
    exact List.mem_map.2 ⟨o, ho, rfl⟩
  have hK_notrange : ∀ r ∈ kept_orders s e fetched db,
      date_in_range s e r.completed_date = false := by
    intro r hr
    have h1 := (List.mem_filter.1 (List.mem_filter.1 hr).1).2
    simpa using h1
  have hK_notin : ∀ r ∈ kept_orders s e fetched db,
      decide (r.order_id ∈ fetched_order_ids fetched) = false := by
    intro r hr
    have h1 := (List.mem_filter.1 hr).2
    simpa using h1
  have hkeep : (kept_items s e db).filter
      (fun it => !(decide (it.order_id ∈ (inserted_orders fetched).map (fun r => r.order_id))))
      = kept_items s e db := by
    apply List.filter_eq_self.mpr
    intro it hit
    have hmem : it ∈ db.order_items := (List.mem_filter.1 hit).1
    have hnot : decide (it.order_id ∈ range_order_ids s e db) = false := by
      simpa using (List.mem_filter.1 hit).2
    have hnotP : ¬ it.order_id ∈ range_order_ids s e db := of_decide_eq_false hnot
    suffices hni : ¬ it.order_id ∈ (inserted_orders fetched).map (fun r => r.order_id) by
      simp [hni]
    intro hin
    rcases List.mem_map.1 hin with ⟨r, hrL, hrid⟩
    have hF : it.order_id ∈ fetched_order_ids fetched := hrid ▸ hL_ids r hrL
    obtain ⟨ro, hro, hroid, hrorange⟩ := H0 it hmem hF
    apply hnotP
    unfold range_order_ids
    exact List.mem_map.2 ⟨ro, List.mem_filter.2 ⟨hro, by simp [hrorange]⟩, hroid⟩
  have hdrop : (fetched_item_rows fetched).filter
      (fun it => !(decide (it.order_id ∈ (inserted_orders fetched).map (fun r => r.order_id))))
      = [] := by
    apply List.filter_eq_nil_iff.mpr
    intro row hrow
    simp only [fetched_item_rows] at hrow
    rcases List.mem_flatten.1 hrow with ⟨l, hl, hrl⟩
    rcases List.mem_map.1 hl with ⟨o, ho, rfl⟩
    rcases List.mem_map.1 hrl with ⟨b, hb, rfl⟩
    have hoin : o.order_id ∈ (inserted_orders fetched).map (fun r => r.order_id) :=
      mem_ids_fold fetched (OrdersDb.mk [] []) o.order_id
        (Or.inr (List.mem_map.2 ⟨o, ho, rfl⟩))
    simp [item_rows_of, hoin]
  rw [refresh_orders_write_decomp s e fetched db]
  set db1 : OrdersDb α β :=
    OrdersDb.mk (kept_orders s e fetched db ++ inserted_orders fetched)
      (kept_items s e db ++ fetched_item_rows fetched) with hdb1
  rw [refresh_orders_write_decomp s e fetched db1]
  have hnilR : (kept_orders s e fetched db).filter
      (fun o => date_in_range s e o.completed_date) = [] :=
    List.filter_eq_nil_iff.mpr (fun r hr => by simp [hK_notrange r hr])
  have hselfR : (inserted_orders fetched).filter
      (fun o => date_in_range s e o.completed_date) = inserted_orders fetched :=
    List.filter_eq_self.mpr (fun r hr => hL_inrange r hr)
  have hRid : range_order_ids s e db1
      = (inserted_orders fetched).map (fun r => r.order_id) := by
    have hexp : range_order_ids s e db1
        = ((kept_orders s e fetched db ++ inserted_orders fetched).filter
            (fun o => date_in_range s e o.completed_date)).map (fun o => o.order_id) := rfl
    rw [hexp, List.filter_append, hnilR, hselfR, List.nil_append]
  have hselfK : (kept_orders s e fetched db).filter
      (fun o => !(date_in_range s e o.completed_date)) = kept_orders s e fetched db :=
    List.filter_eq_self.mpr (fun r hr => by simp [hK_notrange r hr])
  have hnilL : (inserted_orders fetched).filter
      (fun o => !(date_in_range s e o.completed_date)) = [] :=
    List.filter_eq_nil_iff.mpr (fun r hr => by simp [hL_inrange r hr])
  have hKo : kept_orders s e fetched db1 = kept_orders s e fetched db := by
    have hexp : kept_orders s e fetched db1
        = ((kept_orders s e fetched db ++ inserted_orders fetched).filter
              (fun o => !(date_in_range s e o.completed_date))).filter
            (fun r => !(decide (r.order_id ∈ fetched_order_ids fetched))) := rfl
    rw [hexp, List.filter_append, hselfK, hnilL, List.append_nil]
    exact List.filter_eq_self.mpr
      (fun r hr => by simp [of_decide_eq_false (hK_notin r hr)])
  have hKi : kept_items s e db1 = kept_items s e db := by
    have hexp : kept_items s e db1
        = (kept_items s e db ++ fetched_item_rows fetched).filter
            (fun it => !(decide (it.order_id ∈ range_order_ids s e db1))) := rfl
    rw [hexp]
    simp only [hRid]
    rw [List.filter_append, hkeep, hdrop, List.append_nil]
  rw [hKo, hKi]

/-- Witness for C3 amended at a concrete input: refreshing the empty
store with order A (completed day 5, in the range 0..10) once and then
replaying the same refresh leaves the store unchanged. -/
theorem refresh_orders_cache_idempotent_witness :
    refresh_orders_write 0 10 exampleFetched1 exampleDb0 = exampleDb0 :=
  refresh_orders_cache_idempotent 0 10 exampleFetched1 (OrdersDb.mk [] [])
    (by decide) (by decide)

/-- C3 counterexample: exampleDb0 is reachable from the empty store by
one refresh (order A completed day 5 with item 0, range 0..10).  Now
the upstream moves order A to day 20 with item 1 and the range 15..25
is refreshed.  The first run does not delete the stale item 0 (the
stored order A is dated day 5, outside 15..25) yet replaces the order
row, so item 0 survives next to item 1; the second identical run sees
order A in range, deletes both items and reinserts item 1 only.  The
two states differ, refuting unconditional idempotence under replay. -/
theorem refresh_orders_replay_not_idempotent_cex :
    (⟨order_a, (0 : Nat)⟩ : ItemRow Nat)
        ∈ (refresh_orders_write 15 25 exampleFetched2 exampleDb0).order_items
    ∧ ¬ (⟨order_a, (0 : Nat)⟩ : ItemRow Nat)
        ∈ (refresh_orders_write 15 25 exampleFetched2
            (refresh_orders_write 15 25 exampleFetched2 exampleDb0)).order_items
    ∧ refresh_orders_write 15 25 exampleFetched2
          (refresh_orders_write 15 25 exampleFetched2 exampleDb0)
        ≠ refresh_orders_write 15 25 exampleFetched2 exampleDb0 := by
  refine ⟨by decide, by decide, by decide⟩

/-- C6: for the orders, products and inventory refresh invocations, the
start transition sets in_progress to "1", records started_at and clears
the error text; and whatever the work outcome (success or failure), the
finish transition sets in_progress back to "0" together with
finished_at.  So in_progress reads true strictly between the start and
the end of the invocation and false once it finished, on both paths. -/
theorem refresh_status_lifecycle (m : StatusMap) (t1 t2 tb : String)
    (work : Except String RefreshCounts) :
    (refresh_start m t1) k_in_progress = some one_s
    ∧ (refresh_start m t1) k_error = some empty_s
    ∧ (refresh_start m t1) k_started_at = some t1
    ∧ (refresh_orders_run m t1 t2 tb work).1 k_in_progress = some zero_s
    ∧ (refresh_orders_run m t1 t2 tb work).1 k_finished_at = some t2
    ∧ (refresh_products_run m t1 t2 tb work).1 k_in_progress = some zero_s
    ∧ (refresh_products_run m t1 t2 tb work).1 k_finished_at = some t2
    ∧ (refresh_inventory_run m t1 t2 tb work).1 k_in_progress = some zero_s
    ∧ (refresh_inventory_run m t1 t2 tb work).1 k_finished_at = some t2 := by
  cases work <;>
    simp [refresh_orders_run, refresh_products_run, refresh_inventory_run,
      refresh_orders_finish, refresh_products_finish, refresh_inventory_finish,
      refresh_start, set_cache_status, set_key, k_in_progress, k_error,
      k_started_at, k_finished_at, k_orders_count, k_items_count,
      k_products_count, k_inventory_count, k_latest_order_date,
      one_s, zero_s, empty_s]

/-- C7 counterexample: with a status map whose in_progress is "1", the
full orders refresh trigger still starts a refresh (it performs the
start transition and runs the work), while only the latest trigger
returns without starting.  This refutes the claim that EVERY refresh
kind reads in_progress before transitioning and returns when a refresh
is running. -/
theorem refresh_guard_only_latest_cex :
    m_running k_in_progress = some one_s
    ∧ (refresh_orders_run m_running t_a t_b tb_s (Except.ok counts_ex)).2 = true
    ∧ (refresh_orders_run m_running t_a t_b tb_s (Except.ok counts_ex)).1 k_started_at
        = some t_a
    ∧ (refresh_products_run m_running t_a t_b tb_s (Except.ok counts_ex)).2 = true
    ∧ (refresh_inventory_run m_running t_a t_b tb_s (Except.ok counts_ex)).2 = true
    ∧ (refresh_latest_run m_running t_a t_b tb_s (Except.ok counts_ex)).2 = false := by
  refine ⟨by decide, rfl, by decide, rfl, rfl, by decide⟩

/-- C7 amended: only the latest refresh kind guards on the shared
in_progress flag: when the flag reads "1" the latest trigger returns
without any transition and no work runs, and otherwise it starts and
completes the usual lifecycle; the orders, products and inventory
triggers start unconditionally. -/
theorem refresh_latest_guard (m : StatusMap) (t1 t2 tb : String)
    (work : Except String RefreshCounts) :
    (m k_in_progress = some one_s → refresh_latest_run m t1 t2 tb work = (m, false))
    ∧ (m k_in_progress ≠ some one_s →
        (refresh_latest_run m t1 t2 tb work).2 = true
        ∧ (refresh_latest_run m t1 t2 tb work).1 k_in_progress = some zero_s
        ∧ (refresh_latest_run m t1 t2 tb work).1 k_finished_at = some t2)
    ∧ (refresh_orders_run m t1 t2 tb work).2 = true
    ∧ (refresh_products_run m t1 t2 tb work).2 = true
    ∧ (refresh_inventory_run m t1 t2 tb work).2 = true := by
  refine ⟨?_, ?_, rfl, rfl, rfl⟩
  · intro h
    simp [refresh_latest_run, h]
  · intro h
    have hrun : refresh_latest_run m t1 t2 tb work
        = (refresh_orders_finish (refresh_start m t1) t2 tb work, true) := by
      simp [refresh_latest_run, h]
    rw [hrun]
    cases work <;>
      simp [refresh_orders_finish, refresh_start, set_cache_status, set_key,
        k_in_progress, k_error, k_started_at, k_finished_at, k_orders_count,
        k_items_count, k_products_count, k_inventory_count, k_latest_order_date,
        one_s, zero_s, empty_s]

/-- Witness for C7 amended at concrete inputs: with in_progress "1" the
latest trigger is a no-op, and with an empty status map it starts. -/
theorem refresh_latest_guard_witness :
    refresh_latest_run m_running t_a t_b tb_s (Except.ok counts_ex) = (m_running, false)
    ∧ (refresh_latest_run m_empty t_a t_b tb_s (Except.ok counts_ex)).2 = true :=
  ⟨(refresh_latest_guard m_running t_a t_b tb_s (Except.ok counts_ex)).1 (by decide),
   ((refresh_latest_guard m_empty t_a t_b tb_s (Except.ok counts_ex)).2.1 (by decide)).1⟩

/-- C8 counterexample: with empty environment credentials, from_env
does raise immediately — but the refresh run has already performed the
Idle to Running transition: the intermediate state after refresh_start
reads in_progress "1", and the run ends in a Failed state (in_progress
"0", the construction error recorded).  This refutes the claim that the
in_progress flag is never set to true for a refresh whose client
construction fails. -/
theorem refresh_missing_creds_cex :
    from_env env_empty = Except.error missing_creds_msg
    ∧ (refresh_start m_empty t_a) k_in_progress = some one_s
    ∧ refresh_orders_env_run env_empty rest_ok m_empty t_a t_b tb_s
        = (refresh_orders_finish (refresh_start m_empty t_a) t_b tb_s
            (Except.error missing_creds_msg), true)
    ∧ (refresh_orders_env_run env_empty rest_ok m_empty t_a t_b tb_s).1 k_in_progress
        = some zero_s
    ∧ (refresh_orders_env_run env_empty rest_ok m_empty t_a t_b tb_s).1 k_error
        = some (missing_creds_msg ++ newline_s ++ tb_s) := by
  refine ⟨rfl, by decide, rfl, by decide, by decide⟩

/-- C8 amended: when the upstream credentials are missing or empty,
from_env raises immediately, before any client is constructed or any
fetch-and-store work runs; but inside a refresh invocation this happens
after the Idle to Running transition: in_progress is set to "1" first,
the construction error is then caught, and the run ends Failed with
in_progress "0" and the error text recorded. -/
theorem refresh_missing_creds_behavior (env : String → Option String)
    (rest : WineDirectClient → Except String RefreshCounts)
    (m : StatusMap) (t1 t2 tb : String)
    (h : (env env_user).getD empty_s = empty_s
      ∨ (env env_password).getD empty_s = empty_s) :
    from_env env = Except.error missing_creds_msg
    ∧ (refresh_start m t1) k_in_progress = some one_s
    ∧ refresh_orders_env_run env rest m t1 t2 tb
        = (refresh_orders_finish (refresh_start m t1) t2 tb
            (Except.error missing_creds_msg), true)
    ∧ (refresh_orders_env_run env rest m t1 t2 tb).1 k_in_progress = some zero_s
    ∧ (refresh_orders_env_run env rest m t1 t2 tb).1 k_error
        = some (missing_creds_msg ++ newline_s ++ tb) := by
  have hfe : from_env env = Except.error missing_creds_msg := by
    unfold from_env
    rw [if_pos h]
  have hwork : refresh_orders_cache_work env rest = Except.error missing_creds_msg := by
    unfold refresh_orders_cache_work
    rw [hfe]
  have hrun : refresh_orders_env_run env rest m t1 t2 tb
      = (refresh_orders_finish (refresh_start m t1) t2 tb
          (Except.error missing_creds_msg), true) := by
    unfold refresh_orders_env_run
    rw [hwork]
  refine ⟨hfe, ?_, hrun, ?_, ?_⟩
  · simp [refresh_start, set_cache_status, set_key, k_in_progress, k_error,
      k_started_at, one_s, empty_s]
  · rw [hrun]
    simp [refresh_orders_finish, refresh_start, set_cache_status, set_key,
      k_in_progress, k_error, k_started_at, k_finished_at, one_s, zero_s, empty_s]
  · rw [hrun]
    simp [refresh_orders_finish, refresh_start, set_cache_status, set_key,
      k_in_progress, k_error, k_started_at, k_finished_at, one_s, zero_s, empty_s]

/-- Witness for C8 amended at a concrete input: the empty environment. -/
theorem refresh_missing_creds_behavior_witness :
    from_env env_empty = Except.error missing_creds_msg
    ∧ (refresh_orders_env_run env_empty rest_ok m_running t_a t_b tb_s).1 k_in_progress
        = some zero_s :=
  ⟨(refresh_missing_creds_behavior env_empty rest_ok m_running t_a t_b tb_s
      (Or.inl (by decide))).1,
   (refresh_missing_creds_behavior env_empty rest_ok m_running t_a t_b tb_s
      (Or.inl (by decide))).2.2.2.1⟩

/-- C9: every response updates the captured snapshot slots that its
headers carry (and keeps previous values for absent headers) — but the
millisecond normalization is broken: a present-day millisecond epoch
such as 1 760 000 000 000 (2025-10-09 in ms) is BELOW the hard-coded
threshold of 2 000 000 000 000, so it is not divided by 1000 and is then
used as a (far-future, invalid) second epoch; only values above the
threshold, i.e. millisecond epochs after 2033, are normalized.  This
contradicts the code comment "Handle ms epoch values by converting to
seconds" and the claim. -/
theorem rate_limit_reset_ms_not_normalized :
    normalize_reset 1760000000000 = 1760000000000
    ∧ normalize_reset 1760000000000 ≠ 1760000000
    ∧ normalize_reset 2000000000001 = 2000000000
    ∧ (∀ (rl : RateLimitSnapshot) (l r t : String),
        capture_rate_limit (some l, some r, some t) rl = ⟨some l, some r, some t⟩)
    ∧ (∀ rl : RateLimitSnapshot, capture_rate_limit (none, none, none) rl = rl) := by
  refine ⟨by decide, by decide, by decide, ?_, ?_⟩
  · intro rl l r t
    rfl
  · intro rl
    rfl

/-- C10: the normalized net_sales equals the extracted order total
minus taxes, shipping and tip, clamped below at zero; it is never
negative, and whenever taxes plus shipping plus tip exceed the total
(refunds, zero-total orders) it is exactly zero. -/
theorem normalize_order_net_sales_clamped (p : OrderPayload) :
    0 ≤ order_net_sales p
    ∧ order_net_sales p
        = max (order_total_of p - order_taxes_of p - order_shipping_of p - order_tip_of p) 0
    ∧ (order_total_of p < order_taxes_of p + order_shipping_of p + order_tip_of p →
        order_net_sales p = 0) := by
  refine ⟨le_max_right _ _, rfl, ?_⟩
  intro h
  unfold order_net_sales
  apply max_eq_right
  linarith

/-- Witness for C10 at a concrete input: a payload with total 5 and tax
10 yields net_sales 0. -/
theorem normalize_order_net_sales_clamped_witness :
    order_total_of examplePayload
        < order_taxes_of examplePayload + order_shipping_of examplePayload
          + order_tip_of examplePayload
    ∧ order_net_sales examplePayload = 0 := by
  have h : order_total_of examplePayload
      < order_taxes_of examplePayload + order_shipping_of examplePayload
        + order_tip_of examplePayload := by
    norm_num [order_total_of, order_taxes_of, order_shipping_of, order_tip_of,
      py_or, truthy, safe_float, examplePayload]
  exact ⟨h, (normalize_order_net_sales_clamped examplePayload).2.2 h⟩

end GBReporting
